import Mathlib

/-!
Shallow embedding of the game-state engine of `src/main.rs` (a falling-block
puzzle game): piece geometry and rotation, the board with its bounds-checked
accessors, movement validation, locking, line clearing, the fixed-cadence
update step, and the key-command handler.

Conventions of the embedding:
* `i32` coordinates become `Int`; Rust's `expr as usize` cast (sign extension
  to 64 bits, then reinterpretation as an unsigned index) becomes
  `usizeOfI32`, with the modulus `18446744073709551616 = 2 ^ 64` explicit.
* The board array `[[Option<FixedBlock>; 16]; 32]` becomes a total function
  `Nat → Nat → Option FixedBlock`; only indices `y < 32`, `x < 16` are ever
  read through the bounds-checked `Board.get` or written by the engine.
* `Instant`/`Duration` become milliseconds as `Nat`; `Instant::now()` is an
  injected `now` argument.
* Calls to the random number generator are injected as arguments: a chosen
  `Tetromino` and seed values that are reduced into the requested ranges the
  way `gen_range(lo, hi)` constrains its result (`lo + seed % (hi - lo)`).
* Code paths that `panic!` (locking into a non-empty or out-of-bounds cell)
  return `none`.
-/

inductive Tetromino where
  | IBlock
  | OBlock
  | TBlock
  | SBlock
  | ZBlock
  | JBlock
  | LBlock
deriving DecidableEq

structure FixedBlock where
  tetromino : Tetromino
deriving DecidableEq

/-- Rust `as usize` applied to an `i32` value: sign-extension followed by
reinterpretation modulo `2 ^ 64` (the modulus is written as a numeral so that
`omega` can work with it). -/
def usizeOfI32 (z : Int) : Nat := (z % 18446744073709551616).toNat

/-- `-2 ^ 31 ≤ z < 2 ^ 31`: the values an `i32` can hold.  The source stores
every coordinate in an `i32`. -/
def InI32 (z : Int) : Prop := -2147483648 ≤ z ∧ z < 2147483648

instance (z : Int) : Decidable (InI32 z) := by unfold InI32; infer_instance

/-- The board: `data: [[Option<FixedBlock>; 16]; 32]`, row 0 at the top,
`data y x` addressing row `y`, column `x`. -/
structure Board where
  data : Nat → Nat → Option FixedBlock

/-- `Board::get`: `data.get(p.y as usize)` then `row.get(p.x as usize)`;
`none` exactly when either index is out of bounds. -/
def Board.get (b : Board) (p : Int × Int) : Option (Option FixedBlock) :=
  if usizeOfI32 p.2 < 32 then
    if usizeOfI32 p.1 < 16 then some (b.data (usizeOfI32 p.2) (usizeOfI32 p.1))
    else none
  else none

/-- Writing one cell of the underlying array at raw indices `y`, `x`. -/
def Board.setAt (b : Board) (y x : Nat) (c : Option FixedBlock) : Board :=
  ⟨fun y' x' => if y' = y ∧ x' = x then c else b.data y' x'⟩

/-- Writing through `Board::get_mut` at an `i32` coordinate pair. -/
def Board.setI (b : Board) (p : Int × Int) (c : Option FixedBlock) : Board :=
  b.setAt (usizeOfI32 p.2) (usizeOfI32 p.1) c

/-- `Rotate90::rotate_90` on `Vector2<i32>`: a 90-degree step per unit of
`facing`, selected by `facing % 4`. -/
def rotate_90 (v : Int × Int) (facing : Nat) : Int × Int :=
  if facing % 4 = 0 then v
  else if facing % 4 = 1 then (-v.2, v.1)
  else if facing % 4 = 2 then (-v.1, -v.2)
  else (v.2, -v.1)

/-- `Tetromino::block_offsets`: the canonical four offset vectors of each
piece kind. -/
def Tetromino.block_offsets : Tetromino → List (Int × Int)
  | .IBlock => [(0, 0), (1, 0), (2, 0), (-1, 0)]
  | .OBlock => [(0, 0), (1, 0), (0, 1), (1, 1)]
  | .TBlock => [(0, 0), (0, 1), (-1, 0), (1, 0)]
  | .SBlock => [(0, 0), (0, 1), (1, 0), (-1, 1)]
  | .ZBlock => [(0, 0), (0, 1), (-1, 0), (1, 1)]
  | .LBlock => [(0, 0), (0, 1), (0, -1), (-1, -1)]
  | .JBlock => [(0, 0), (0, 1), (0, -1), (1, -1)]

/-- `Tetromino::blocks`: each offset rotated by `facing` and translated by
`pos`. -/
def Tetromino.blocks (t : Tetromino) (pos : Int × Int) (facing : Nat) :
    List (Int × Int) :=
  t.block_offsets.map fun v =>
    (pos.1 + (rotate_90 v facing).1, pos.2 + (rotate_90 v facing).2)

/-- `Tetromino::min_x`: least x of `blocks((0,0), facing)`.  The list always
has four elements, so the `unwrap` of the source is modelled by `getD 0`. -/
def Tetromino.min_x (t : Tetromino) (facing : Nat) : Int :=
  (((t.blocks (0, 0) facing).map Prod.fst).min?).getD 0

/-- `Tetromino::max_x`. -/
def Tetromino.max_x (t : Tetromino) (facing : Nat) : Int :=
  (((t.blocks (0, 0) facing).map Prod.fst).max?).getD 0

/-- `Tetromino::min_y`. -/
def Tetromino.min_y (t : Tetromino) (facing : Nat) : Int :=
  (((t.blocks (0, 0) facing).map Prod.snd).min?).getD 0

/-- `Tetromino::max_y`. -/
def Tetromino.max_y (t : Tetromino) (facing : Nat) : Int :=
  (((t.blocks (0, 0) facing).map Prod.snd).max?).getD 0

/-- The fields of `MainState` that the engine reads and writes.  `pos` is
split into `posX`/`posY`; `start_time` and the injected clock are in
milliseconds. -/
structure MainState where
  posX : Int
  posY : Int
  facing : Nat
  tetromino : Tetromino
  startTime : Nat
  updatesSoFar : Nat
  board : Board

/-- The shared legality test of the four `not_overlapping_*` methods: every
cell of the candidate pose maps through `Board::get` to `Some(&None)`. -/
def canOccupy (b : Board) (t : Tetromino) (p : Int × Int) (f : Nat) : Bool :=
  (t.blocks p f).all fun c => decide (b.get c = some none)

/-- `MainState::not_overlapping_down`: candidate pose one row lower. -/
def MainState.not_overlapping_down (s : MainState) : Bool :=
  canOccupy s.board s.tetromino (s.posX, s.posY + 1) s.facing

/-- `MainState::not_overlapping_left`. -/
def MainState.not_overlapping_left (s : MainState) : Bool :=
  canOccupy s.board s.tetromino (s.posX - 1, s.posY) s.facing

/-- `MainState::not_overlapping_right`. -/
def MainState.not_overlapping_right (s : MainState) : Bool :=
  canOccupy s.board s.tetromino (s.posX + 1, s.posY) s.facing

/-- `MainState::not_overlapping_rotate`: same origin, `facing + 1` (a `u8`
addition, hence the `% 256`). -/
def MainState.not_overlapping_rotate (s : MainState) : Bool :=
  canOccupy s.board s.tetromino (s.posX, s.posY) ((s.facing + 1) % 256)

/-- The locking loop of `update`: write `Some(FixedBlock)` into each target
cell, but only when `get_mut` finds an in-bounds cell that `is_none`;
otherwise the source panics, modelled as `none`. -/
def lockBlocks (t : Tetromino) : Board → List (Int × Int) → Option Board
  | b, [] => some b
  | b, c :: rest =>
    match b.get c with
    | some none => lockBlocks t (b.setI c (some ⟨t⟩)) rest
    | _ => none

/-- `self.board.data[y].iter().all(Option::is_some)`. -/
def Board.row_is_full (b : Board) (y : Nat) : Bool :=
  (List.range 16).all fun x => (b.data y x).isSome

/-- The inner `for x in 0..GRID_SIZE.0` loop of the line-clear compaction:
cell by cell, row `src` is copied into row `dst`. -/
def copyRowInto (b : Board) (src dst : Nat) : Board :=
  (List.range 16).foldl (fun acc x => acc.setAt dst x (acc.data src x)) b

/-- The compaction for a full row at `fromRow`:
`for higher in (0..fromRow).rev() { copy row higher into row higher + 1 }`. -/
def shift_rows_down (b : Board) (fromRow : Nat) : Board :=
  ((List.range fromRow).reverse).foldl
    (fun acc higher => copyRowInto acc higher (higher + 1)) b

/-- The scan `for y in 0..32 { if row y is full { shift rows down } }`,
reading each row from the board as already modified by earlier iterations. -/
def clearFullRows (b : Board) : Board :=
  (List.range 32).foldl
    (fun acc y => if acc.row_is_full y then shift_rows_down acc y else acc) b

/-- `MILLIS_PER_UPDATE = (1.0 / 2.0 * 1000.0) as u64`. -/
def MILLIS_PER_UPDATE : Nat := 500

/-- The respawn tail of `update` (lines 128-137): a new random tetromino, a
random facing in `[0, 4)`, a random x origin in `[-min_x, 16 - max_x)` and
`y = -min_y`.  `rt` is the sampled piece; `rf` and `rx` are injected seeds
reduced into the requested ranges. -/
def respawn (rt : Tetromino) (rf rx : Nat) (s : MainState) : MainState :=
  { s with
    tetromino := rt
    facing := rf % 4
    posX := -(rt.min_x (rf % 4)) +
      Int.ofNat (rx % (16 - rt.max_x (rf % 4) + rt.min_x (rf % 4)).toNat)
    posY := -(rt.min_y (rf % 4)) }

/-- `EventHandler::update`, with the clock and the random draws injected:
if at least `MILLIS_PER_UPDATE * updates_so_far` milliseconds have elapsed
since `start_time`, descend one row when legal, otherwise lock the piece,
compact full rows and respawn; then increment `updates_so_far` once.  The
whole body runs at most once per call.  `none` models the `panic!` in the
locking loop. -/
def MainState.update (s : MainState) (now : Nat) (rt : Tetromino)
    (rf rx : Nat) : Option MainState :=
  if MILLIS_PER_UPDATE * s.updatesSoFar ≤ now - s.startTime then
    if s.not_overlapping_down then
      some { s with posY := s.posY + 1, updatesSoFar := s.updatesSoFar + 1 }
    else
      match lockBlocks s.tetromino s.board
          (s.tetromino.blocks (s.posX, s.posY) s.facing) with
      | none => none
      | some b =>
        some { respawn rt rf rx { s with board := clearFullRows b } with
               updatesSoFar := s.updatesSoFar + 1 }
  else some s

/-- The `Space` branch of `key_down_event`:
`while self.not_overlapping_down() { self.pos[1] += 1 }`.  Termination: the
first block of the candidate pose sits in row `posY + 1`, so the legality
check forces `usizeOfI32 (posY + 1) < 32`, and that quantity grows by one per
iteration. -/
def MainState.hard_drop (s : MainState) : MainState :=
  if hd : s.not_overlapping_down = true then
    MainState.hard_drop { s with posY := s.posY + 1 }
  else s
termination_by 32 - usizeOfI32 (s.posY + 1)
decreasing_by
  have hrot : rotate_90 (0 : Int × Int) s.facing = 0 := by
    unfold rotate_90; split_ifs <;> rfl
  have hmem : ((s.posX, s.posY + 1) : Int × Int) ∈
      s.tetromino.blocks (s.posX, s.posY + 1) s.facing := by
    cases s.tetromino <;>
      simp [Tetromino.blocks, Tetromino.block_offsets, hrot]
  unfold MainState.not_overlapping_down canOccupy at hd
  rw [List.all_eq_true] at hd
  have hget := hd _ hmem
  simp only [decide_eq_true_eq] at hget
  have h32 : usizeOfI32 (s.posY + 1) < 32 := by
    by_contra hc
    simp [Board.get, hc] at hget
  simp only [usizeOfI32] at h32 ⊢
  omega

/-- The key codes the handler distinguishes; everything else falls into the
wildcard arm. -/
inductive Key where
  | left
  | right
  | up
  | down
  | space
  | other
deriving DecidableEq

/-- `EventHandler::key_down_event`: each arm validates with the matching
`not_overlapping_*` check and commits its single change only on success. -/
def MainState.key_down_event (s : MainState) (k : Key) : MainState :=
  match k with
  | .left => if s.not_overlapping_left then { s with posX := s.posX - 1 } else s
  | .right => if s.not_overlapping_right then { s with posX := s.posX + 1 } else s
  | .up => if s.not_overlapping_rotate then { s with facing := (s.facing + 1) % 256 } else s
  | .down => if s.not_overlapping_down then { s with posY := s.posY + 1 } else s
  | .space => s.hard_drop
  | .other => s

/-- `MainState::new`: position `(gen_range(0, 15), 0)`, facing `0`, a random
tetromino, zero updates, an empty board; `rsx` is the injected seed for the
x draw and `t0` the construction time. -/
def MainState.new (rt : Tetromino) (rsx : Nat) (t0 : Nat) : MainState :=
  { posX := Int.ofNat (rsx % 15)
    posY := 0
    facing := 0
    tetromino := rt
    startTime := t0
    updatesSoFar := 0
    board := ⟨fun _ _ => none⟩ }

/-- An empty board, for concrete scenarios. -/
def emptyBoard : Board := ⟨fun _ _ => none⟩

/-- A falling I-piece in mid-air on an empty board, with a tick due. -/
def sFall : MainState :=
  { posX := 5, posY := 5, facing := 0, tetromino := .IBlock,
    startTime := 0, updatesSoFar := 0, board := emptyBoard }

/-- Like `sFall` but with one tick already counted, so no tick is due at
time 0. -/
def sIdle : MainState :=
  { sFall with updatesSoFar := 1 }

/-- An O-piece hugging the left wall: moving left is illegal. -/
def sLeftWall : MainState :=
  { sFall with posX := 0, tetromino := .OBlock }

/-- An O-piece hugging the right wall: moving right is illegal. -/
def sRightWall : MainState :=
  { sFall with posX := 14, tetromino := .OBlock }

/-- An I-piece lying in row 0: rotating would need row -1, so it is
illegal. -/
def sRotWall : MainState :=
  { sFall with posY := 0 }

/-- An O-piece resting on the floor: moving down is illegal. -/
def sBottom : MainState :=
  { sFall with posY := 30, tetromino := .OBlock }

/-- A board with row 5 completely full and one locked cell in row 0, for
the compaction counterexample. -/
def cb4 : Board :=
  ⟨fun y x =>
    if y = 5 ∧ x < 16 then some ⟨.IBlock⟩
    else if y = 0 ∧ x = 0 then some ⟨.OBlock⟩
    else none⟩

/-- A board whose rows 0 and 1 are full except for columns 0 and 1, with a
supporting block at (0, 2): the O-piece of `cs7` locks at the origin and
completes rows 0 and 1 simultaneously. -/
def b7 : Board :=
  ⟨fun y x =>
    if y = 0 ∧ 2 ≤ x ∧ x < 16 then some ⟨.IBlock⟩
    else if y = 1 ∧ 2 ≤ x ∧ x < 16 then some ⟨.IBlock⟩
    else if y = 2 ∧ x = 0 then some ⟨.IBlock⟩
    else none⟩

/-- The state that locks an O-piece into `b7`, filling rows 0 and 1. -/
def cs7 : MainState :=
  { posX := 0, posY := 0, facing := 0, tetromino := .OBlock,
    startTime := 0, updatesSoFar := 0, board := b7 }

/-- A board with rows 30 and 31 full and row 0 empty, on which the scan
does clear everything. -/
def cb7w : Board :=
  ⟨fun y x => if 30 ≤ y ∧ y < 32 ∧ x < 16 then some ⟨.TBlock⟩ else none⟩

/-! ## Helper lemmas: the `as usize` cast and rotation -/

theorem usizeOfI32_lt_iff (z : Int) (n : Nat) (hz : InI32 z)
    (hn : n ≤ 2147483648) : usizeOfI32 z < n ↔ 0 ≤ z ∧ z < (n : Int) := by
  unfold usizeOfI32 InI32 at *
  omega

theorem usizeOfI32_eq_toNat (z : Int) (h0 : 0 ≤ z) (h1 : z < 2147483648) :
    usizeOfI32 z = z.toNat := by
  unfold usizeOfI32
  omega

theorem rotate_90_mod (v : Int × Int) (f : Nat) :
    rotate_90 v f = rotate_90 v (f % 4) := by
  unfold rotate_90
  have h : f % 4 % 4 = f % 4 := by omega
  rw [h]

theorem rotate_90_inj (f : Nat) :
    Function.Injective (fun v : Int × Int => rotate_90 v f) := by
  intro u v h
  obtain ⟨u1, u2⟩ := u
  obtain ⟨v1, v2⟩ := v
  unfold rotate_90 at h
  split_ifs at h <;> simp only [Prod.mk.injEq] at h ⊢ <;> omega

theorem blocks_mod (t : Tetromino) (p : Int × Int) (f : Nat) :
    t.blocks p f = t.blocks p (f % 4) := by
  unfold Tetromino.blocks
  congr 1
  funext v
  rw [rotate_90_mod v f]

theorem min_x_mod (t : Tetromino) (f : Nat) : t.min_x f = t.min_x (f % 4) := by
  unfold Tetromino.min_x
  rw [blocks_mod]

theorem max_x_mod (t : Tetromino) (f : Nat) : t.max_x f = t.max_x (f % 4) := by
  unfold Tetromino.max_x
  rw [blocks_mod]

theorem min_y_mod (t : Tetromino) (f : Nat) : t.min_y f = t.min_y (f % 4) := by
  unfold Tetromino.min_y
  rw [blocks_mod]

/-- The horizontal spawn range `[-min_x, 16 - max_x)` is nonempty for every
piece kind and facing. -/
theorem width_pos (t : Tetromino) (f : Nat) :
    0 < 16 - t.max_x f + t.min_x f := by
  rw [max_x_mod, min_x_mod]
  have h : f % 4 = 0 ∨ f % 4 = 1 ∨ f % 4 = 2 ∨ f % 4 = 3 := by omega
  rcases h with h | h | h | h <;> rw [h] <;> cases t <;> decide

theorem block_offsets_nodup (t : Tetromino) : t.block_offsets.Nodup := by
  cases t <;> decide

theorem blocks_nodup (t : Tetromino) (p : Int × Int) (f : Nat) :
    (t.blocks p f).Nodup := by
  unfold Tetromino.blocks
  apply List.Nodup.map _ (block_offsets_nodup t)
  intro u v h
  simp only [Prod.mk.injEq] at h
  apply rotate_90_inj f
  show rotate_90 u f = rotate_90 v f
  apply Prod.ext
  · omega
  · omega

theorem blocks_length (t : Tetromino) (p : Int × Int) (f : Nat) :
    (t.blocks p f).length = 4 := by
  cases t <;> rfl

/-! ## Helper lemmas: `Board.get` -/

theorem Board.get_eq_some (b : Board) (c : Int × Int) (v : Option FixedBlock)
    (h : b.get c = some v) :
    usizeOfI32 c.2 < 32 ∧ usizeOfI32 c.1 < 16 ∧
      b.data (usizeOfI32 c.2) (usizeOfI32 c.1) = v := by
  unfold Board.get at h
  split_ifs at h with h1 h2
  exact ⟨h1, h2, by injection h⟩

theorem Board.get_of_bounds (b : Board) (c : Int × Int)
    (h1 : usizeOfI32 c.2 < 32) (h2 : usizeOfI32 c.1 < 16) :
    b.get c = some (b.data (usizeOfI32 c.2) (usizeOfI32 c.1)) := by
  unfold Board.get
  rw [if_pos h1, if_pos h2]

theorem Board.get_setAt_ne (b : Board) (c : Int × Int) (y x : Nat)
    (v : Option FixedBlock)
    (h : ¬(usizeOfI32 c.2 = y ∧ usizeOfI32 c.1 = x)) :
    (b.setAt y x v).get c = b.get c := by
  unfold Board.get Board.setAt
  split_ifs with h1 h2
  · simp only []
    rw [if_neg h]
  · rfl
  · rfl

/-! ## C8: the cell-set function -/

/-- C8 (confirmed).  For every piece kind, facing and origin, `blocks` yields
exactly 4 pairwise-distinct grid coordinates, and its i-th coordinate is the
origin translated by the rotation of the i-th canonical offset. -/
theorem blocks_geometry (t : Tetromino) (p : Int × Int) (f : Nat) :
    (t.blocks p f).length = 4 ∧ (t.blocks p f).Nodup ∧
    ∀ i, i < 4 →
      (t.blocks p f).getD i 0 =
        (p.1 + (rotate_90 (t.block_offsets.getD i 0) f).1,
         p.2 + (rotate_90 (t.block_offsets.getD i 0) f).2) := by
  refine ⟨blocks_length t p f, blocks_nodup t p f, ?_⟩
  intro i hi
  have h : i = 0 ∨ i = 1 ∨ i = 2 ∨ i = 3 := by omega
  rcases h with h | h | h | h <;> subst h <;> cases t <;> rfl

/-- Witness for C8 at a concrete kind, facing and origin. -/
theorem blocks_geometry_witness :
    (Tetromino.SBlock.blocks (3, 7) 1).length = 4 ∧
    (Tetromino.SBlock.blocks (3, 7) 1).Nodup ∧
    (Tetromino.SBlock.blocks (3, 7) 1).getD 2 0 =
      ((3 : Int) + (rotate_90 (Tetromino.SBlock.block_offsets.getD 2 0) 1).1,
       (7 : Int) + (rotate_90 (Tetromino.SBlock.block_offsets.getD 2 0) 1).2) := by
  obtain ⟨h1, h2, h3⟩ := blocks_geometry Tetromino.SBlock (3, 7) 1
  exact ⟨h1, h2, h3 2 (by decide)⟩

/-! ## C5: the occupancy legality check -/

/-- C5 (confirmed).  For `i32`-representable coordinates, the legality check
is true exactly when every cell of the candidate pose is inside
`[0,16) × [0,32)` and `None` on the board; any out-of-bounds (including
negative) or occupied cell makes it false. -/
theorem can_occupy_iff (b : Board) (t : Tetromino) (p : Int × Int) (f : Nat)
    (hr : ∀ c ∈ t.blocks p f, InI32 c.1 ∧ InI32 c.2) :
    canOccupy b t p f = true ↔
      ∀ c ∈ t.blocks p f, 0 ≤ c.1 ∧ c.1 < 16 ∧ 0 ≤ c.2 ∧ c.2 < 32 ∧
        b.data c.2.toNat c.1.toNat = none := by
  unfold canOccupy
  rw [List.all_eq_true]
  constructor
  · intro h c hc
    have hg := h c hc
    simp only [decide_eq_true_eq] at hg
    obtain ⟨hx, hy⟩ := hr c hc
    obtain ⟨h32, h16, hdata⟩ := Board.get_eq_some b c none hg
    have hx' := (usizeOfI32_lt_iff c.1 16 hx (by omega)).mp h16
    have hy' := (usizeOfI32_lt_iff c.2 32 hy (by omega)).mp h32
    refine ⟨hx'.1, by exact_mod_cast hx'.2, hy'.1, by exact_mod_cast hy'.2, ?_⟩
    rw [usizeOfI32_eq_toNat c.2 hy'.1 (by omega),
        usizeOfI32_eq_toNat c.1 hx'.1 (by omega)] at hdata
    exact hdata
  · intro h c hc
    obtain ⟨hx0, hx16, hy0, hy32, hdata⟩ := h c hc
    simp only [decide_eq_true_eq]
    have h32 : usizeOfI32 c.2 < 32 := by unfold usizeOfI32; omega
    have h16 : usizeOfI32 c.1 < 16 := by unfold usizeOfI32; omega
    rw [Board.get_of_bounds b c h32 h16,
        usizeOfI32_eq_toNat c.2 hy0 (by omega),
        usizeOfI32_eq_toNat c.1 hx0 (by omega), hdata]

/-- Witness for C5: the check on an empty board at a concrete pose. -/
theorem can_occupy_iff_witness :
    canOccupy emptyBoard Tetromino.OBlock (3, 3) 0 = true ↔
      ∀ c ∈ Tetromino.OBlock.blocks (3, 3) 0,
        0 ≤ c.1 ∧ c.1 < 16 ∧ 0 ≤ c.2 ∧ c.2 < 32 ∧
          emptyBoard.data c.2.toNat c.1.toNat = none :=
  can_occupy_iff emptyBoard Tetromino.OBlock (3, 3) 0 (by decide)

/-! ## Helper lemmas: the per-tick driver -/

theorem update_not_due (s : MainState) (now : Nat) (rt : Tetromino)
    (rf rx : Nat)
    (h : now - s.startTime < MILLIS_PER_UPDATE * s.updatesSoFar) :
    s.update now rt rf rx = some s := by
  unfold MainState.update
  rw [if_neg (by omega)]

theorem update_due_descend (s : MainState) (now : Nat) (rt : Tetromino)
    (rf rx : Nat)
    (h : MILLIS_PER_UPDATE * s.updatesSoFar ≤ now - s.startTime)
    (hdown : s.not_overlapping_down = true) :
    s.update now rt rf rx =
      some { s with posY := s.posY + 1,
                    updatesSoFar := s.updatesSoFar + 1 } := by
  unfold MainState.update
  rw [if_pos h]
  simp [hdown]

theorem update_fields (s : MainState) (now : Nat) (rt : Tetromino)
    (rf rx : Nat)
    (h : MILLIS_PER_UPDATE * s.updatesSoFar ≤ now - s.startTime)
    (s' : MainState) (he : s.update now rt rf rx = some s') :
    s'.updatesSoFar = s.updatesSoFar + 1 ∧ s'.startTime = s.startTime := by
  unfold MainState.update at he
  rw [if_pos h] at he
  by_cases hdown : s.not_overlapping_down = true
  · rw [if_pos hdown] at he
    injection he with he2
    subst he2
    exact ⟨rfl, rfl⟩
  · rw [if_neg hdown] at he
    cases hl : lockBlocks s.tetromino s.board
        (s.tetromino.blocks (s.posX, s.posY) s.facing) with
    | none => rw [hl] at he; simp at he
    | some b =>
      rw [hl] at he
      injection he with he2
      subst he2
      exact ⟨rfl, rfl⟩

theorem update_due_lock (s : MainState) (now : Nat) (rt : Tetromino)
    (rf rx : Nat)
    (h : MILLIS_PER_UPDATE * s.updatesSoFar ≤ now - s.startTime)
    (hdown : s.not_overlapping_down = false) :
    s.update now rt rf rx =
      (lockBlocks s.tetromino s.board
          (s.tetromino.blocks (s.posX, s.posY) s.facing)).map
        (fun b =>
          { respawn rt rf rx { s with board := clearFullRows b } with
            updatesSoFar := s.updatesSoFar + 1 }) := by
  unfold MainState.update
  rw [if_pos h, if_neg (by simp [hdown])]
  cases hl : lockBlocks s.tetromino s.board
      (s.tetromino.blocks (s.posX, s.posY) s.facing) <;> rfl

/-! ## C1: the per-tick driver performs one step per call -/

/-- C1 (corrected).  The driver does not loop: a call performs at most one
transition.  When no tick is due it returns the state unchanged.  When a
tick is due and the downward move is legal, the piece descends one row and
the counter is incremented once.  When a tick is due and the downward move
is illegal, the driver locks the current piece's four cells into the board
(`lockBlocks`, panicking — `none` — on a non-empty or out-of-bounds target),
compacts full rows with the top-to-bottom scan (`clearFullRows`), respawns
(`respawn`), and increments the counter once; in every non-panicking due
case `updates_so_far` grows by exactly one and `start_time` is untouched.
A tick can therefore still be overdue when the call returns (see the
counterexample). -/
theorem update_single_tick (s : MainState) (now : Nat) (rt : Tetromino)
    (rf rx : Nat) :
    (now - s.startTime < MILLIS_PER_UPDATE * s.updatesSoFar →
      s.update now rt rf rx = some s) ∧
    (MILLIS_PER_UPDATE * s.updatesSoFar ≤ now - s.startTime →
      (s.not_overlapping_down = true →
        s.update now rt rf rx =
          some { s with posY := s.posY + 1,
                        updatesSoFar := s.updatesSoFar + 1 }) ∧
      (s.not_overlapping_down = false →
        s.update now rt rf rx =
          (lockBlocks s.tetromino s.board
              (s.tetromino.blocks (s.posX, s.posY) s.facing)).map
            (fun b =>
              { respawn rt rf rx { s with board := clearFullRows b } with
                updatesSoFar := s.updatesSoFar + 1 })) ∧
      ∀ s', s.update now rt rf rx = some s' →
        s'.updatesSoFar = s.updatesSoFar + 1 ∧
        s'.startTime = s.startTime) := by
  refine ⟨fun h => update_not_due s now rt rf rx h, fun h => ⟨?_, ?_, ?_⟩⟩
  · exact fun hdown => update_due_descend s now rt rf rx h hdown
  · exact fun hdown => update_due_lock s now rt rf rx h hdown
  · exact fun s' he => update_fields s now rt rf rx h s' he

/-- Witness for C1 at concrete states: one not-yet-due call, one due call
that descends, and one due call on a floored piece that locks, compacts and
respawns. -/
theorem update_single_tick_witness :
    sIdle.update 0 Tetromino.IBlock 0 0 = some sIdle ∧
    sFall.update 0 Tetromino.IBlock 0 0 =
      some { sFall with posY := sFall.posY + 1,
                        updatesSoFar := sFall.updatesSoFar + 1 } ∧
    sBottom.update 0 Tetromino.TBlock 1 2 =
      (lockBlocks sBottom.tetromino sBottom.board
          (sBottom.tetromino.blocks (sBottom.posX, sBottom.posY)
            sBottom.facing)).map
        (fun b =>
          { respawn Tetromino.TBlock 1 2
              { sBottom with board := clearFullRows b } with
            updatesSoFar := sBottom.updatesSoFar + 1 }) ∧
    (({ sFall with posY := sFall.posY + 1,
                   updatesSoFar := sFall.updatesSoFar + 1 } :
        MainState).updatesSoFar = sFall.updatesSoFar + 1 ∧
     ({ sFall with posY := sFall.posY + 1,
                   updatesSoFar := sFall.updatesSoFar + 1 } :
        MainState).startTime = sFall.startTime) := by
  refine ⟨(update_single_tick sIdle 0 Tetromino.IBlock 0 0).1 (by decide),
    ((update_single_tick sFall 0 Tetromino.IBlock 0 0).2 (by decide)).1
      (by decide),
    ((update_single_tick sBottom 0 Tetromino.TBlock 1 2).2 (by decide)).2.1
      (by decide),
    ((update_single_tick sFall 0 Tetromino.IBlock 0 0).2 (by decide)).2.2 _
      ?_⟩
  exact ((update_single_tick sFall 0 Tetromino.IBlock 0 0).2 (by decide)).1
    (by decide)

/-- Counterexample to C1 as stated: starting two periods past `start_time`
(`now = 1000`, period 500, zero ticks counted), one call performs a single
transition, and afterwards a tick is still overdue, i.e.
`tick_count * period ≤ now - start_time` still holds. -/
theorem update_overdue_after_call :
    sFall.update 1000 Tetromino.IBlock 0 0 =
      some { sFall with posY := sFall.posY + 1,
                        updatesSoFar := sFall.updatesSoFar + 1 } ∧
    MILLIS_PER_UPDATE *
        ({ sFall with posY := sFall.posY + 1,
                      updatesSoFar := sFall.updatesSoFar + 1 } :
          MainState).updatesSoFar ≤
      1000 - ({ sFall with posY := sFall.posY + 1,
                           updatesSoFar := sFall.updatesSoFar + 1 } :
          MainState).startTime := by
  exact ⟨rfl, by decide⟩

/-! ## C2: idempotence of `advance` at an unchanged `now` -/

/-- C2 (corrected).  A second call with the same `now` is a no-op only when
the first call left no tick overdue; this holds whenever at most one tick
was overdue initially (`now - start_time < period * (tick_count + 1)`).
Without that bound the second call ticks again (see the counterexample). -/
theorem update_second_call_noop (s : MainState) (now : Nat)
    (rt rt' : Tetromino) (rf rx rf' rx' : Nat)
    (h : now - s.startTime < MILLIS_PER_UPDATE * (s.updatesSoFar + 1))
    (s' : MainState) (he : s.update now rt rf rx = some s') :
    s'.update now rt' rf' rx' = some s' := by
  by_cases hdue : MILLIS_PER_UPDATE * s.updatesSoFar ≤ now - s.startTime
  · obtain ⟨hu, hst⟩ := update_fields s now rt rf rx hdue s' he
    exact update_not_due s' now rt' rf' rx' (by rw [hu, hst]; exact h)
  · rw [update_not_due s now rt rf rx (by omega)] at he
    injection he with he2
    subst he2
    exact update_not_due s now rt' rf' rx' (by omega)

/-- Witness for C2: a first due call at `now = 300` descends once; the
second call at the same `now` returns the state unchanged. -/
theorem update_second_call_noop_witness :
    ({ sFall with posY := sFall.posY + 1,
                  updatesSoFar := sFall.updatesSoFar + 1 } :
        MainState).update 300 Tetromino.OBlock 1 2 =
      some { sFall with posY := sFall.posY + 1,
                        updatesSoFar := sFall.updatesSoFar + 1 } :=
  update_second_call_noop sFall 300 Tetromino.IBlock Tetromino.OBlock 0 0 1 2
    (by decide) _ rfl

/-- Counterexample to C2 as stated: with two ticks overdue, the second call
with the same `now = 1000` performs another transition — the tick counter
reaches 2 and the piece descends another row. -/
theorem update_not_idempotent :
    (sFall.update 1000 Tetromino.IBlock 0 0).map MainState.updatesSoFar =
      some 1 ∧
    ((sFall.update 1000 Tetromino.IBlock 0 0).bind
        (fun s1 => s1.update 1000 Tetromino.IBlock 0 0)).map
      MainState.updatesSoFar = some 2 ∧
    ((sFall.update 1000 Tetromino.IBlock 0 0).bind
        (fun s1 => s1.update 1000 Tetromino.IBlock 0 0)).map
      MainState.posY ≠
      (sFall.update 1000 Tetromino.IBlock 0 0).map MainState.posY := by
  exact ⟨rfl, rfl, by decide⟩

/-! ## C3: spawn positions -/

/-- C3 (corrected).  The post-lock respawn does follow the claimed rule: the
new facing is the drawn value mod 4, the x origin lies in
`[-min_x, 16 - max_x)` for the chosen (kind, facing), and `y = -min_y`.  The
construction-time spawn (`MainState::new`) does not: it draws x uniformly
from `[0, 15)` ignoring the piece extent, and fixes `y = 0` and facing 0
(see the counterexample). -/
theorem spawn_positions (rt : Tetromino) (rf rx : Nat) (s : MainState)
    (rsx t0 : Nat) :
    (-(rt.min_x ((respawn rt rf rx s).facing)) ≤ (respawn rt rf rx s).posX ∧
     (respawn rt rf rx s).posX < 16 - rt.max_x ((respawn rt rf rx s).facing) ∧
     (respawn rt rf rx s).posY =
       -(rt.min_y ((respawn rt rf rx s).facing)) ∧
     (respawn rt rf rx s).tetromino = rt ∧
     (respawn rt rf rx s).facing = rf % 4) ∧
    ((MainState.new rt rsx t0).posY = 0 ∧
     (MainState.new rt rsx t0).facing = 0 ∧
     0 ≤ (MainState.new rt rsx t0).posX ∧
     (MainState.new rt rsx t0).posX < 15) := by
  constructor
  · have hw := width_pos rt (rf % 4)
    have hn : 0 < (16 - rt.max_x (rf % 4) + rt.min_x (rf % 4)).toNat := by
      omega
    have hlt := Nat.mod_lt rx hn
    refine ⟨?_, ?_, rfl, rfl, rfl⟩
    · show -(rt.min_x (rf % 4)) ≤ -(rt.min_x (rf % 4)) +
        Int.ofNat (rx % (16 - rt.max_x (rf % 4) + rt.min_x (rf % 4)).toNat)
      simp only [Int.ofNat_eq_coe]
      omega
    · show -(rt.min_x (rf % 4)) +
        Int.ofNat (rx % (16 - rt.max_x (rf % 4) + rt.min_x (rf % 4)).toNat) <
          16 - rt.max_x (rf % 4)
      simp only [Int.ofNat_eq_coe]
      omega
  · refine ⟨rfl, rfl, ?_, ?_⟩
    · show (0 : Int) ≤ Int.ofNat (rsx % 15)
      simp only [Int.ofNat_eq_coe]
      omega
    · show Int.ofNat (rsx % 15) < 15
      simp only [Int.ofNat_eq_coe]
      omega

/-- Counterexample to C3 as stated: at construction (`MainState::new`) the
spawn does not set `y = -min_y`.  A fresh L-piece at facing 0 has
`min_y = -1`, so the claimed rule demands `y = 1`, but `new` always sets
`y = 0`. -/
theorem new_spawn_cex :
    (MainState.new Tetromino.LBlock 0 0).posY ≠
      -(Tetromino.min_y (MainState.new Tetromino.LBlock 0 0).tetromino
        (MainState.new Tetromino.LBlock 0 0).facing) := by
  decide

/-! ## Helper lemmas: the line-clear compaction -/

theorem foldl_copy_cells (src dst : Nat) (hne : src ≠ dst) :
    ∀ (l : List Nat) (b : Board) (y x : Nat),
      (l.foldl (fun acc t => acc.setAt dst t (acc.data src t)) b).data y x =
        if y = dst ∧ x ∈ l then b.data src x else b.data y x := by
  intro l
  induction l with
  | nil =>
    intro b y x
    simp
  | cons a l ih =>
    intro b y x
    rw [List.foldl_cons, ih]
    simp only [Board.setAt, List.mem_cons]
    by_cases hy : y = dst
    · by_cases hxl : x ∈ l
      · simp [hy, hxl, hne]
      · by_cases hxa : x = a
        · subst hxa
          simp [hy, hxl]
        · simp [hy, hxl, hxa]
    · simp [hy]

theorem copyRowInto_data (b : Board) (src dst : Nat) (hne : src ≠ dst)
    (y x : Nat) :
    (copyRowInto b src dst).data y x =
      if y = dst ∧ x < 16 then b.data src x else b.data y x := by
  unfold copyRowInto
  rw [foldl_copy_cells src dst hne]
  simp [List.mem_range]

theorem shift_rows_down_succ (b : Board) (r : Nat) :
    shift_rows_down b (r + 1) =
      shift_rows_down (copyRowInto b r (r + 1)) r := by
  unfold shift_rows_down
  rw [List.range_succ, List.reverse_append, List.reverse_singleton,
    List.singleton_append, List.foldl_cons]

theorem shift_rows_down_data (b : Board) (r y x : Nat) :
    (shift_rows_down b r).data y x =
      if 1 ≤ y ∧ y ≤ r ∧ x < 16 then b.data (y - 1) x else b.data y x := by
  induction r generalizing b with
  | zero =>
    unfold shift_rows_down
    simp only [List.range_zero, List.reverse_nil, List.foldl_nil]
    rw [if_neg (by omega)]
  | succ r ih =>
    rw [shift_rows_down_succ, ih]
    by_cases hy1 : 1 ≤ y ∧ y ≤ r ∧ x < 16
    · rw [if_pos hy1, copyRowInto_data b r (r + 1) (by omega) (y - 1) x,
        if_neg (by omega), if_pos (by omega)]
    · rw [if_neg hy1, copyRowInto_data b r (r + 1) (by omega) y x]
      by_cases hy2 : y = r + 1 ∧ x < 16
      · rw [if_pos hy2, if_pos (by omega)]
        have he : y - 1 = r := by omega
        rw [he]
      · rw [if_neg hy2, if_neg (by omega)]

/-! ## C4: the compaction for one cleared row -/

/-- C4 (corrected).  The compaction for a cleared row `fromRow` makes each
row `y` with `1 ≤ y ≤ fromRow` a copy of the prior row `y - 1` and leaves
rows below `fromRow` unchanged — but it does not clear row 0: row 0 keeps
its prior contents (so it is only empty afterwards when it already was).
The claimed "leaves row 0 empty" fails (see the counterexample). -/
theorem shift_rows_down_spec (b : Board) (fromRow y x : Nat) :
    (shift_rows_down b fromRow).data y x =
      if 1 ≤ y ∧ y ≤ fromRow ∧ x < 16 then b.data (y - 1) x
      else b.data y x :=
  shift_rows_down_data b fromRow y x

/-- Counterexample to C4's "leaves row 0 empty afterwards": on a board with
row 5 full and an occupied cell at (0, 0), the compaction for row 5 leaves
that row-0 cell occupied. -/
theorem shift_rows_down_row0_cex :
    cb4.row_is_full 5 = true ∧ (shift_rows_down cb4 5).data 0 0 ≠ none := by
  decide

/-! ## Helper lemmas: the full-row scan -/

theorem all_range_congr (n : Nat) (f g : Nat → Bool)
    (h : ∀ x, x < n → f x = g x) :
    (List.range n).all f = (List.range n).all g := by
  induction n with
  | zero => rfl
  | succ n ih =>
    rw [List.range_succ, List.all_append, List.all_append,
      ih (fun x hx => h x (by omega))]
    simp [h n (by omega)]

theorem row_is_full_congr (b1 b2 : Board) (y1 y2 : Nat)
    (h : ∀ x, x < 16 → b1.data y1 x = b2.data y2 x) :
    b1.row_is_full y1 = b2.row_is_full y2 := by
  unfold Board.row_is_full
  exact all_range_congr 16 _ _ (fun x hx => by rw [h x hx])

/-- Invariant of the top-to-bottom scan: as long as row 0 starts out not
full, the scan never touches row 0, and every already-scanned row is not
full. -/
theorem clearScan_inv (b : Board) (h0 : b.row_is_full 0 = false) :
    ∀ n,
      (∀ x, (((List.range n).foldl
          (fun acc y => if acc.row_is_full y then shift_rows_down acc y
            else acc) b)).data 0 x = b.data 0 x) ∧
      (∀ j, j < n → (((List.range n).foldl
          (fun acc y => if acc.row_is_full y then shift_rows_down acc y
            else acc) b)).row_is_full j = false) := by
  intro n
  induction n with
  | zero => exact ⟨fun x => rfl, fun j hj => absurd hj (by omega)⟩
  | succ n ih =>
    obtain ⟨ih0, ihf⟩ := ih
    rw [List.range_succ, List.foldl_append, List.foldl_cons, List.foldl_nil]
    set A : Board := (List.range n).foldl
      (fun acc y => if acc.row_is_full y then shift_rows_down acc y else acc)
      b with hA
    by_cases hfull : A.row_is_full n = true
    · rw [if_pos hfull]
      constructor
      · intro x
        rw [shift_rows_down_data, if_neg (by omega)]
        exact ih0 x
      · intro j hj
        by_cases hj0 : j = 0
        · subst hj0
          have hc : (shift_rows_down A n).row_is_full 0 = b.row_is_full 0 :=
            row_is_full_congr _ _ 0 0 (fun x hx => by
              rw [shift_rows_down_data, if_neg (by omega)]
              exact ih0 x)
          rw [hc]
          exact h0
        · have hj1 : 1 ≤ j := by omega
          have hjn : j ≤ n := by omega
          have hc : (shift_rows_down A n).row_is_full j =
              A.row_is_full (j - 1) :=
            row_is_full_congr _ _ j (j - 1) (fun x hx => by
              rw [shift_rows_down_data, if_pos ⟨hj1, hjn, hx⟩])
          rw [hc]
          exact ihf (j - 1) (by omega)
    · rw [if_neg hfull]
      constructor
      · exact ih0
      · intro j hj
        by_cases hjn : j = n
        · subst hjn
          simpa using hfull
        · exact ihf j (by omega)

/-! ## C7: the scan clears all full rows -/

/-- C7 (corrected).  Provided row 0 is not full when the scan starts, the
single top-to-bottom scan clears every full row, including several
simultaneously full rows: afterwards no row is fully occupied.  When row 0
is full the scan cannot clear it (the compaction for row 0 copies nothing
and does not clear the row), and a full row 0 is even duplicated downward
by later clears — see the counterexample. -/
theorem clear_scan_clears (b : Board) (h0 : b.row_is_full 0 = false) :
    ∀ y, y < 32 → (clearFullRows b).row_is_full y = false := by
  intro y hy
  exact (clearScan_inv b h0 32).2 y hy

/-- Witness for C7: a board with rows 30 and 31 simultaneously full and
row 0 empty; after the scan the bottom row is no longer full. -/
theorem clear_scan_clears_witness :
    (clearFullRows cb7w).row_is_full 31 = false :=
  clear_scan_clears cb7w (by decide) 31 (by decide)

set_option maxRecDepth 100000 in
/-- Counterexample to C7 as stated: locking the O-piece of `cs7` (its
downward move is illegal) completes rows 0 and 1 simultaneously; after the
scan, row 0 is still fully occupied. -/
theorem clear_scan_cex :
    cs7.not_overlapping_down = false ∧
    (lockBlocks cs7.tetromino cs7.board
        (cs7.tetromino.blocks (cs7.posX, cs7.posY) cs7.facing)).map
      (fun bb => (clearFullRows bb).row_is_full 0) = some true := by
  decide

/-! ## Helper lemmas: locking -/

theorem lockBlocks_go (t : Tetromino) :
    ∀ (l : List (Int × Int)) (b : Board),
      (∀ c ∈ l, b.get c = some none) →
      l.Pairwise (fun a c =>
        ¬(usizeOfI32 a.2 = usizeOfI32 c.2 ∧
          usizeOfI32 a.1 = usizeOfI32 c.1)) →
      ∃ b', lockBlocks t b l = some b' ∧
        (∀ c ∈ l, b'.get c = some (some ⟨t⟩)) ∧
        (∀ y x, (∀ c ∈ l, ¬(usizeOfI32 c.2 = y ∧ usizeOfI32 c.1 = x)) →
          b'.data y x = b.data y x) := by
  intro l
  induction l with
  | nil =>
    intro b _ _
    exact ⟨b, rfl, by simp, fun y x _ => rfl⟩
  | cons c rest ih =>
    intro b hemp hpw
    have hc : b.get c = some none := hemp c (by simp)
    obtain ⟨h32, h16, _⟩ := Board.get_eq_some b c none hc
    rw [List.pairwise_cons] at hpw
    obtain ⟨hchead, hpw'⟩ := hpw
    have hrest : ∀ d ∈ rest, (b.setI c (some ⟨t⟩)).get d = some none := by
      intro d hd
      show (b.setAt (usizeOfI32 c.2) (usizeOfI32 c.1) (some ⟨t⟩)).get d =
        some none
      rw [Board.get_setAt_ne]
      · exact hemp d (by simp [hd])
      · intro hcontra
        exact hchead d hd ⟨hcontra.1.symm, hcontra.2.symm⟩
    obtain ⟨b', hb'eq, hb'set, hb'frame⟩ := ih (b.setI c (some ⟨t⟩)) hrest hpw'
    refine ⟨b', ?_, ?_, ?_⟩
    · show (match b.get c with
        | some none => lockBlocks t (b.setI c (some ⟨t⟩)) rest
        | _ => none) = some b'
      rw [hc]
      exact hb'eq
    · intro d hd
      rcases List.mem_cons.mp hd with hdc | hdrest
      · subst hdc
        have hfr := hb'frame (usizeOfI32 d.2) (usizeOfI32 d.1)
          (fun e he hcon => hchead e he ⟨hcon.1.symm, hcon.2.symm⟩)
        rw [Board.get_of_bounds b' d h32 h16, hfr]
        show some ((b.setAt (usizeOfI32 d.2) (usizeOfI32 d.1)
            (some ⟨t⟩)).data (usizeOfI32 d.2) (usizeOfI32 d.1)) =
          some (some ⟨t⟩)
        simp [Board.setAt]
      · exact hb'set d hdrest
    · intro y x havoid
      rw [hb'frame y x (fun e he => havoid e (by simp [he]))]
      show (b.setAt (usizeOfI32 c.2) (usizeOfI32 c.1)
          (some ⟨t⟩)).data y x = b.data y x
      simp only [Board.setAt]
      rw [if_neg]
      intro hcon
      exact havoid c (by simp) ⟨hcon.1.symm, hcon.2.symm⟩

/-! ## C6: locking a piece with four empty target cells -/

/-- C6 (confirmed).  If all four target cells of the falling piece are in
bounds and empty, the locking loop succeeds, afterwards exactly those four
cells hold `Some(FixedBlock(kind))`, and every other cell of the board array
is unchanged. -/
theorem lock_piece_spec (b : Board) (t : Tetromino) (p : Int × Int) (f : Nat)
    (hcells : ∀ c ∈ t.blocks p f, 0 ≤ c.1 ∧ c.1 < 16 ∧ 0 ≤ c.2 ∧ c.2 < 32 ∧
      b.data c.2.toNat c.1.toNat = none) :
    ∃ b', lockBlocks t b (t.blocks p f) = some b' ∧
      (∀ c ∈ t.blocks p f, b'.data c.2.toNat c.1.toNat = some ⟨t⟩) ∧
      (∀ y x : Nat, (∀ c ∈ t.blocks p f, ¬(c.2.toNat = y ∧ c.1.toNat = x)) →
        b'.data y x = b.data y x) := by
  have hu : ∀ c ∈ t.blocks p f,
      usizeOfI32 c.1 = c.1.toNat ∧ usizeOfI32 c.2 = c.2.toNat := by
    intro c hc
    obtain ⟨hx0, hx16, hy0, hy32, _⟩ := hcells c hc
    exact ⟨usizeOfI32_eq_toNat c.1 hx0 (by omega),
      usizeOfI32_eq_toNat c.2 hy0 (by omega)⟩
  have hemp : ∀ c ∈ t.blocks p f, b.get c = some none := by
    intro c hc
    obtain ⟨hx0, hx16, hy0, hy32, hdata⟩ := hcells c hc
    obtain ⟨hux, huy⟩ := hu c hc
    have hb32 : usizeOfI32 c.2 < 32 := by rw [huy]; omega
    have hb16 : usizeOfI32 c.1 < 16 := by rw [hux]; omega
    rw [Board.get_of_bounds b c hb32 hb16, hux, huy, hdata]
  have hpw : (t.blocks p f).Pairwise (fun a c =>
      ¬(usizeOfI32 a.2 = usizeOfI32 c.2 ∧
        usizeOfI32 a.1 = usizeOfI32 c.1)) := by
    refine (blocks_nodup t p f).imp_of_mem ?_
    intro a c ha hc hne hcon
    obtain ⟨hax, hay⟩ := hu a ha
    obtain ⟨hcx, hcy⟩ := hu c hc
    obtain ⟨ha0, _, ha2, _, _⟩ := hcells a ha
    obtain ⟨hc0, _, hc2, _, _⟩ := hcells c hc
    rw [hay, hcy] at hcon
    rw [hax, hcx] at hcon
    apply hne
    apply Prod.ext
    · omega
    · omega
  obtain ⟨b', h1, h2, h3⟩ := lockBlocks_go t (t.blocks p f) b hemp hpw
  refine ⟨b', h1, ?_, ?_⟩
  · intro c hc
    obtain ⟨hux, huy⟩ := hu c hc
    obtain ⟨_, _, hdata⟩ := Board.get_eq_some b' c (some ⟨t⟩) (h2 c hc)
    rw [hux, huy] at hdata
    exact hdata
  · intro y x havoid
    apply h3
    intro c hc hcon
    obtain ⟨hux, huy⟩ := hu c hc
    rw [huy, hux] at hcon
    exact havoid c hc hcon

/-- Witness for C6: locking an O-piece at (3, 3) into the empty board. -/
theorem lock_piece_spec_witness :
    ∃ b', lockBlocks Tetromino.OBlock emptyBoard
        (Tetromino.OBlock.blocks (3, 3) 0) = some b' ∧
      (∀ c ∈ Tetromino.OBlock.blocks (3, 3) 0,
        b'.data c.2.toNat c.1.toNat = some ⟨Tetromino.OBlock⟩) ∧
      (∀ y x : Nat, (∀ c ∈ Tetromino.OBlock.blocks (3, 3) 0,
          ¬(c.2.toNat = y ∧ c.1.toNat = x)) →
        b'.data y x = emptyBoard.data y x) :=
  lock_piece_spec emptyBoard Tetromino.OBlock (3, 3) 0 (by decide)

/-! ## Helper lemmas: hard drop -/

theorem not_overlapping_down_row (s : MainState)
    (h : s.not_overlapping_down = true) : usizeOfI32 (s.posY + 1) < 32 := by
  have hrot : rotate_90 (0 : Int × Int) s.facing = 0 := by
    unfold rotate_90
    split_ifs <;> rfl
  have hmem : ((s.posX, s.posY + 1) : Int × Int) ∈
      s.tetromino.blocks (s.posX, s.posY + 1) s.facing := by
    cases s.tetromino <;>
      simp [Tetromino.blocks, Tetromino.block_offsets, hrot]
  unfold MainState.not_overlapping_down canOccupy at h
  rw [List.all_eq_true] at h
  have hget := h _ hmem
  simp only [decide_eq_true_eq] at hget
  by_contra hc
  simp [Board.get, hc] at hget

theorem hard_drop_step (s : MainState) (h : s.not_overlapping_down = true) :
    s.hard_drop = MainState.hard_drop { s with posY := s.posY + 1 } := by
  conv_lhs => rw [MainState.hard_drop]
  rw [dif_pos h]

theorem hard_drop_fix (s : MainState) (h : s.not_overlapping_down = false) :
    s.hard_drop = s := by
  conv_lhs => rw [MainState.hard_drop]
  rw [dif_neg]
  simp [h]

theorem hard_drop_props (s : MainState) :
    (s.hard_drop).board = s.board ∧ (s.hard_drop).posX = s.posX ∧
    (s.hard_drop).facing = s.facing ∧
    (s.hard_drop).tetromino = s.tetromino ∧
    (s.hard_drop).startTime = s.startTime ∧
    (s.hard_drop).updatesSoFar = s.updatesSoFar ∧
    s.posY ≤ (s.hard_drop).posY ∧
    (s.hard_drop).not_overlapping_down = false := by
  induction s using MainState.hard_drop.induct with
  | case1 s hd ih =>
    rw [hard_drop_step s hd]
    obtain ⟨hb, hx, hf, ht, hst, hu, hy, hnd⟩ := ih
    refine ⟨hb, hx, hf, ht, hst, hu, ?_, hnd⟩
    have hy' : s.posY + 1 ≤
        (MainState.hard_drop { s with posY := s.posY + 1 }).posY := hy
    omega
  | case2 s hd =>
    have hd' : s.not_overlapping_down = false := by simpa using hd
    rw [hard_drop_fix s hd']
    exact ⟨rfl, rfl, rfl, rfl, rfl, rfl, le_refl _, hd'⟩

theorem hard_drop_le31 (s : MainState) (hy : InI32 s.posY)
    (h0 : s.posY ≤ 31) : (s.hard_drop).posY ≤ 31 := by
  induction s using MainState.hard_drop.induct with
  | case1 s hd ih =>
    rw [hard_drop_step s hd]
    have hb := not_overlapping_down_row s hd
    unfold usizeOfI32 at hb
    unfold InI32 at hy
    have hy1 : InI32 (s.posY + 1) := by unfold InI32; omega
    have h01 : s.posY + 1 ≤ 31 := by omega
    exact ih hy1 h01
  | case2 s hd =>
    have hd' : s.not_overlapping_down = false := by simpa using hd
    rw [hard_drop_fix s hd']
    exact h0

theorem hard_drop_stuck (s : MainState) (hy : InI32 s.posY)
    (h : 31 < s.posY ∨ s.posY < -1) : s.hard_drop = s := by
  apply hard_drop_fix
  by_contra hc
  have ht : s.not_overlapping_down = true := by
    revert hc
    cases s.not_overlapping_down <;> simp
  have hb := not_overlapping_down_row s ht
  unfold usizeOfI32 at hb
  unfold InI32 at hy
  omega

/-! ## C10: the hard-drop loop terminates within 32 iterations -/

/-- C10 (confirmed).  `hard_drop` is a total function (its termination proof
rests on the legality check forcing the candidate row index below 32), each
iteration increments `posY` by exactly one, and for any `i32` starting row
the final `posY` exceeds the starting one by at most 32 — i.e. the loop
performs at most height = 32 iterations. -/
theorem hard_drop_bound (s : MainState) (hy : InI32 s.posY) :
    s.posY ≤ (s.hard_drop).posY ∧ (s.hard_drop).posY ≤ s.posY + 32 := by
  refine ⟨(hard_drop_props s).2.2.2.2.2.2.1, ?_⟩
  by_cases h1 : s.posY ≤ 31
  · by_cases h2 : -1 ≤ s.posY
    · have := hard_drop_le31 s hy h1
      omega
    · rw [hard_drop_stuck s hy (by omega)]
      omega
  · rw [hard_drop_stuck s hy (by omega)]
    omega

/-- Witness for C10 at a concrete state. -/
theorem hard_drop_bound_witness :
    sFall.posY ≤ (sFall.hard_drop).posY ∧
    (sFall.hard_drop).posY ≤ sFall.posY + 32 :=
  hard_drop_bound sFall (by decide)

/-! ## C9: player commands are validated, atomic, and silently ignored -/

/-- C9 (confirmed).  Each key command whose legality check fails leaves the
state (piece origin, facing, and the whole board) unchanged and raises no
error (the handler is a total function); when the check succeeds the command
commits exactly its one intended change: left/right shift `posX` by one,
rotate bumps `facing` (a `u8` increment), down shifts `posY` by one — and
none of them ever touches the board.  `HardDrop` with a failing first check
is likewise a no-op, and in all cases it changes only `posY`, leaving the
piece resting where a further descent is illegal. -/
theorem key_commands (s : MainState) :
    (s.not_overlapping_left = false → s.key_down_event Key.left = s) ∧
    (s.not_overlapping_left = true →
      s.key_down_event Key.left = { s with posX := s.posX - 1 }) ∧
    (s.not_overlapping_right = false → s.key_down_event Key.right = s) ∧
    (s.not_overlapping_right = true →
      s.key_down_event Key.right = { s with posX := s.posX + 1 }) ∧
    (s.not_overlapping_rotate = false → s.key_down_event Key.up = s) ∧
    (s.not_overlapping_rotate = true →
      s.key_down_event Key.up = { s with facing := (s.facing + 1) % 256 }) ∧
    (s.not_overlapping_down = false → s.key_down_event Key.down = s) ∧
    (s.not_overlapping_down = true →
      s.key_down_event Key.down = { s with posY := s.posY + 1 }) ∧
    (s.not_overlapping_down = false → s.key_down_event Key.space = s) ∧
    ((s.key_down_event Key.space).board = s.board ∧
     (s.key_down_event Key.space).posX = s.posX ∧
     (s.key_down_event Key.space).facing = s.facing ∧
     (s.key_down_event Key.space).tetromino = s.tetromino ∧
     (s.key_down_event Key.space).not_overlapping_down = false) := by
  obtain ⟨hb, hx, hf, ht, _, _, _, hnd⟩ := hard_drop_props s
  refine ⟨?_, ?_, ?_, ?_, ?_, ?_, ?_, ?_, ?_, hb, hx, hf, ht, hnd⟩
  · intro h
    simp [MainState.key_down_event, h]
  · intro h
    simp [MainState.key_down_event, h]
  · intro h
    simp [MainState.key_down_event, h]
  · intro h
    simp [MainState.key_down_event, h]
  · intro h
    simp [MainState.key_down_event, h]
  · intro h
    simp [MainState.key_down_event, h]
  · intro h
    simp [MainState.key_down_event, h]
  · intro h
    simp [MainState.key_down_event, h]
  · intro h
    show s.hard_drop = s
    exact hard_drop_fix s h

/-- Witness for C9: every check discharged concretely — each blocked command
is a no-op on its wall-hugging state, and each legal command commits its one
change on the mid-air state `sFall`. -/
theorem key_commands_witness :
    sLeftWall.key_down_event Key.left = sLeftWall ∧
    sFall.key_down_event Key.left = { sFall with posX := sFall.posX - 1 } ∧
    sRightWall.key_down_event Key.right = sRightWall ∧
    sFall.key_down_event Key.right = { sFall with posX := sFall.posX + 1 } ∧
    sRotWall.key_down_event Key.up = sRotWall ∧
    sFall.key_down_event Key.up =
      { sFall with facing := (sFall.facing + 1) % 256 } ∧
    sBottom.key_down_event Key.down = sBottom ∧
    sFall.key_down_event Key.down = { sFall with posY := sFall.posY + 1 } ∧
    sBottom.key_down_event Key.space = sBottom ∧
    ((sFall.key_down_event Key.space).board = sFall.board ∧
     (sFall.key_down_event Key.space).posX = sFall.posX ∧
     (sFall.key_down_event Key.space).facing = sFall.facing ∧
     (sFall.key_down_event Key.space).tetromino = sFall.tetromino ∧
     (sFall.key_down_event Key.space).not_overlapping_down = false) :=
  ⟨(key_commands sLeftWall).1 (by decide),
   (key_commands sFall).2.1 (by decide),
   (key_commands sRightWall).2.2.1 (by decide),
   (key_commands sFall).2.2.2.1 (by decide),
   (key_commands sRotWall).2.2.2.2.1 (by decide),
   (key_commands sFall).2.2.2.2.2.1 (by decide),
   (key_commands sBottom).2.2.2.2.2.2.1 (by decide),
   (key_commands sFall).2.2.2.2.2.2.2.1 (by decide),
   (key_commands sBottom).2.2.2.2.2.2.2.2.1 (by decide),
   (key_commands sFall).2.2.2.2.2.2.2.2.2⟩
